import Mathlib

/-!
Verification of the Shopkeeper Product Substitution Assistant core
(`src/core/kg_builder.py`, `src/core/reasoning.py`, `src/models/product.py`).

The Python code is shallowly embedded:
* `Product` / `Recommendation` dataclasses become structures; Python `float`
  prices and scores are modelled as exact rationals `ℚ` (every numeric literal
  in the code is a short decimal);
* the `networkx` undirected graph becomes a pair of insertion-ordered lists
  (node identifiers, typed edges) with membership-checked insertion, which is
  exactly the observable behaviour `build_kg` / `bfs_candidates_with_depth`
  rely on (`G.neighbors` yields the other endpoint of each incident edge in
  edge-insertion order);
* Python dicts become association lists: lookup is last-binding-wins for the
  dicts built by comprehensions in `find_alternatives`, and insertion-ordered
  update-in-place for the `candidates` dict of the BFS;
* string primitives (`startswith`, `split`, `strip`, `join`, lexicographic
  comparison) are defined over the character lists of the strings so that
  they evaluate by kernel reduction; `list.sort(key=..., reverse=True)` is a
  stable sort, so it is embedded as a structural stable insertion sort with
  the same ordering (any two stable sorts with one comparison agree);
* the BFS `while queue` loop becomes a fuel-indexed loop; the fuel passed by
  `bfs_candidates_with_depth` (`|nodes| + 2·|edges| + 2`) strictly exceeds the
  number of iterations the loop can make (each iteration dequeues one entry,
  and at most `1 + 2·|edges|` entries are ever enqueued because every enqueue
  other than the start is guarded by the visited set and enqueues an endpoint
  of some edge), so the loop always runs to completion just like the Python
  `while`.
-/

namespace ShopSub

/-! ## String primitives (kernel-computable forms of the Python built-ins) -/

/-- Python `pre + rest` is `String.append`; `s.startswith(pre)` on data. -/
def pyStartswith (pre s : String) : Bool :=
  pre.data.isPrefixOf s.data

/-- Python `sep.join(parts)`. -/
def pyJoin (sep : String) (parts : List String) : String :=
  ⟨(List.intersperse sep.data (parts.map String.data)).flatten⟩

/-- Python `s.strip()`: drop leading and trailing whitespace. -/
def pyStrip (s : String) : String :=
  ⟨((s.data.dropWhile Char.isWhitespace).reverse.dropWhile Char.isWhitespace).reverse⟩

/-- Scanner for Python `s.split(sep)` with non-empty `sep`: non-overlapping
occurrences, left to right.  The fuel exceeds the number of characters left,
and each step consumes at least one character, so fuel never runs out. -/
def splitAux (sep : List Char) : Nat → List Char → List Char → List (List Char)
  | 0, acc, _ => [acc.reverse]
  | fuel + 1, acc, rest =>
    if sep.isPrefixOf rest && !rest.isEmpty then
      acc.reverse :: splitAux sep fuel [] (rest.drop sep.length)
    else
      match rest with
      | [] => [acc.reverse]
      | c :: cs => splitAux sep fuel (c :: acc) cs

/-- Python `s.split(sep)` (`sep` non-empty, as in `node_id_to_product`). -/
def pySplit (s sep : String) : List String :=
  (splitAux sep.data (s.data.length + 1) [] s.data).map String.mk

/-- Python `max` on integers. -/
def pymax (a b : ℤ) : ℤ :=
  if a ≤ b then b else a

/-- Code-point comparison `a <= b` used by Python string sorting. -/
def lexLe : List Char → List Char → Bool
  | [], _ => true
  | _ :: _, [] => false
  | a :: as, b :: bs =>
    if a < b then true else if b < a then false else lexLe as bs

/-! ## Data model (`src/models/product.py`) -/

/-- `src/models/product.py` — dataclass `Product`. -/
structure Product where
  product_id : String
  name : String
  category : String
  brand : String
  price : ℚ
  in_stock : Bool
  tags : List String := []
deriving DecidableEq, Repr

/-- `src/models/product.py` — dataclass `Recommendation`. -/
structure Recommendation where
  product : Product
  score : ℚ
  rule_tags : List String
  explanation : String
deriving DecidableEq, Repr

/-! ## Graph model (`networkx.Graph` as used by `kg_builder.py` / `reasoning.py`) -/

/-- One undirected edge with its `edge_type` metadata. -/
structure Edge where
  u : String
  v : String
  ty : String
deriving DecidableEq, Repr

/-- The knowledge graph: insertion-ordered node identifiers and edges.
Node/edge attribute payloads other than `edge_type` are never read by the
reasoning code (it goes through `id_to_product`), so they are not modelled. -/
structure KG where
  nodes : List String
  edges : List Edge
deriving DecidableEq, Repr

/-- `networkx` `add_node`: adding an existing node is a no-op (attribute
update only); a new node is appended in insertion order. -/
def addNode (g : KG) (n : String) : KG :=
  if n ∈ g.nodes then g else ⟨g.nodes ++ [n], g.edges⟩

/-- Does `e` connect the unordered pair `{u, v}`? -/
def edgeEq (e : Edge) (u v : String) : Bool :=
  (e.u = u && e.v = v) || (e.u = v && e.v = u)

/-- `networkx` `add_edge`: missing endpoints are added as nodes; re-adding an
existing undirected edge only updates attributes (`build_kg` never re-adds an
edge with a different `edge_type`, so keeping the first is faithful). -/
def addEdge (g : KG) (u v ty : String) : KG :=
  let g := addNode g u
  let g := addNode g v
  if g.edges.any (fun e => edgeEq e u v) then g
  else ⟨g.nodes, g.edges ++ [⟨u, v, ty⟩]⟩

/-- `networkx` `G.neighbors n`: the other endpoint of each incident edge, in
edge-insertion order (adjacency dicts are insertion-ordered). -/
def neighbors (g : KG) (n : String) : List String :=
  g.edges.filterMap (fun e =>
    if e.u = n then some e.v else if e.v = n then some e.u else none)

/-! ## `src/core/kg_builder.py` -/

/-- `kg_builder.py` — the fixed category enumeration `CATEGORIES`. -/
def CATEGORIES : List String := ["Dairy", "Bakery", "Snacks", "Beverages", "Health"]

/-- `kg_builder.py` — `SIMILAR_CATEGORIES` dict; `.get(c, [])` behaviour for
keys outside the table. -/
def SIMILAR_CATEGORIES : String → List String
  | "Dairy" => ["Health", "Snacks"]
  | "Bakery" => ["Snacks", "Health"]
  | "Snacks" => ["Bakery", "Health"]
  | "Beverages" => ["Health"]
  | "Health" => ["Dairy", "Snacks", "Bakery", "Beverages"]
  | _ => []

/-- `kg_builder.py` — the curated `SIMILAR_PAIRS` list. -/
def SIMILAR_PAIRS : List (String × String) :=
  [("P001", "P003"), ("P002", "P026"), ("P009", "P011"),
   ("P012", "P028"), ("P015", "P016"), ("P018", "P019"),
   ("P021", "P022"), ("P023", "P024"), ("P027", "P028"),
   ("P029", "P026")]

/-- Stable insertion of a string into a lexicographically sorted list. -/
def insertStrLe (x : String) : List String → List String
  | [] => [x]
  | y :: ys => if lexLe x.data y.data then x :: y :: ys else y :: insertStrLe x ys

/-- Python `sorted(set(l))`: deduplicate, then sort lexicographically; the
resulting order only fixes node insertion order, never graph structure. -/
def sortedSet (l : List String) : List String :=
  l.dedup.foldl (fun acc s => insertStrLe s acc) []

/-- Body of the `for p in products` loop of `build_kg`: the product's node
and its IS_A / HAS_BRAND / HAS_ATTRIBUTE edges. -/
def addProductToKG (g : KG) (p : Product) : KG :=
  let pid := "product:" ++ p.product_id
  let g := addNode g pid
  let g := addEdge g pid ("category:" ++ p.category) "IS_A"
  let g := addEdge g pid ("brand:" ++ p.brand) "HAS_BRAND"
  p.tags.foldl (fun g tag => addEdge g pid ("attr:" ++ tag) "HAS_ATTRIBUTE") g

/-- Body of the `for a, b in SIMILAR_PAIRS` loop of `build_kg`: the edge is
added only when both endpoints exist in the current catalog. -/
def addSimilarEdge (product_ids : List String) (g : KG) (ab : String × String) : KG :=
  if ab.1 ∈ product_ids && ab.2 ∈ product_ids then
    addEdge g ("product:" ++ ab.1) ("product:" ++ ab.2) "SIMILAR_TO"
  else g

/-- `kg_builder.py` — `build_kg`: category nodes, brand nodes, attribute
nodes, then one node per product with its IS_A / HAS_BRAND / HAS_ATTRIBUTE
edges, then the curated SIMILAR_TO edges whose endpoints both exist. -/
def build_kg (products : List Product) : KG :=
  let g0 : KG := ⟨CATEGORIES.map (fun c => "category:" ++ c), []⟩
  let brands := sortedSet (products.map Product.brand)
  let attributes := sortedSet (products.flatMap Product.tags)
  let g1 := brands.foldl (fun g b => addNode g ("brand:" ++ b)) g0
  let g2 := attributes.foldl (fun g a => addNode g ("attr:" ++ a)) g1
  let g3 := products.foldl addProductToKG g2
  let product_ids := products.map Product.product_id
  SIMILAR_PAIRS.foldl (addSimilarEdge product_ids) g3

/-! ## `src/core/reasoning.py` -/

/-- Python dict lookup for a dict built by a comprehension over a list of
key/value pairs: the last binding for a key wins. -/
def dictGet {α : Type} (l : List (String × α)) (k : String) : Option α :=
  l.foldl (fun acc kv => if kv.1 = k then some kv.2 else acc) none

/-- `reasoning.py` — `product_to_node_id`. -/
def product_to_node_id (product_id : String) : String :=
  "product:" ++ product_id

/-- `reasoning.py` — `node_id_to_product`; `node_id.split("product:")[-1]`
is the last piece of the split (the split list is always non-empty). -/
def node_id_to_product (node_id : String) (id_to_product : List (String × Product)) :
    Option Product :=
  if pyStartswith "product:" node_id then
    dictGet id_to_product ((pySplit node_id "product:").getLastD "")
  else none

/-- `reasoning.py` — `category_closeness`. -/
def category_closeness (source_cat target_cat : String) : ℚ :=
  if source_cat = target_cat then 1.0
  else if target_cat ∈ SIMILAR_CATEGORIES source_cat then 0.7
  else 0.0

/-- `reasoning.py` — the `RULE_EXPLANATIONS` dict (as a partial lookup). -/
def RULE_EXPLANATIONS : String → Option String
  | "exact_match_available" => some "The exact item is in stock and matches your filters."
  | "preferred_brand_respected" => some "Matches your preferred brand."
  | "same_brand_as_requested" => some "Same brand as the requested product."
  | "different_brand_than_requested" => some "Different brand than the requested product."
  | "all_required_tags_matched" => some "Matches all required tags."
  | "cheaper_option" => some "Cheaper than the requested product."
  | "same_price_as_requested" => some "Same price as the requested product."
  | "slightly_more_expensive" => some "Slightly more expensive."
  | "same_category" => some "Same category."
  | "similar_category" => some "Related category."
  | "closer_in_graph" => some "Close to the requested item in the knowledge graph."
  | _ => none

/-- `reasoning.py` — `build_explanation`. -/
def build_explanation (rule_tags required_tags : List String) : String :=
  let parts := rule_tags.filterMap RULE_EXPLANATIONS
  let parts :=
    if required_tags ≠ [] && "all_required_tags_matched" ∈ rule_tags then
      parts ++ ["Required tags: " ++ pyJoin ", " required_tags ++ "."]
    else parts
  pyStrip (pyJoin " " parts)

/-- Python `set(required_tags).issubset(set(candidate_tags))`. -/
def tagsSubset (required_tags candidate_tags : List String) : Bool :=
  required_tags.all (fun t => candidate_tags.contains t)

/-- `reasoning.py` — `check_exact_product_availability`. -/
def check_exact_product_availability (product : Product) (max_price : Option ℚ)
    (required_tags : List String) (preferred_brand : Option String) :
    Option Product × List String :=
  if preferred_brand.isSome && preferred_brand ≠ some product.brand then (none, [])
  else if max_price.isSome && decide (max_price.getD 0 < product.price) then (none, [])
  else if !product.in_stock then (none, [])
  else if !tagsSubset required_tags product.tags then (none, [])
  else
    let tags := ["exact_match_available"]
    let tags := if preferred_brand.isSome then tags ++ ["preferred_brand_respected"] else tags
    let tags := if required_tags ≠ [] then tags ++ ["all_required_tags_matched"] else tags
    (some product, tags)

/-- State threaded through the neighbor loop of the BFS:
(visited, queue, candidates). -/
abbrev BfsAcc := List String × List (String × Nat) × List (String × (Product × Nat))

/-- First-match association lookup (the BFS `candidates` dict has unique
keys by construction). -/
def assocGet (l : List (String × (Product × Nat))) (k : String) : Option (Product × Nat) :=
  (l.find? (fun kv => kv.1 = k)).map Prod.snd

/-- Python dict update in place: replace the value at an existing key,
keeping its insertion position. -/
def assocSet (l : List (String × (Product × Nat))) (k : String) (v : Product × Nat) :
    List (String × (Product × Nat)) :=
  l.map (fun kv => if kv.1 = k then (k, v) else kv)

/-- Body of `for nb in KG.neighbors(node)` in `bfs_candidates_with_depth`. -/
def bfsVisit (start : String) (id_to_product : List (String × Product)) (depth : Nat)
    (acc : BfsAcc) (nb : String) : BfsAcc :=
  let (visited, queue, candidates) := acc
  if nb ∈ visited then acc
  else
    let visited := visited ++ [nb]
    let queue := queue ++ [(nb, depth + 1)]
    let candidates :=
      if pyStartswith "product:" nb && nb ≠ start then
        match node_id_to_product nb id_to_product with
        | some p =>
          match assocGet candidates p.product_id with
          | none => candidates ++ [(p.product_id, (p, depth + 1))]
          | some prev =>
            if depth + 1 < prev.2 then assocSet candidates p.product_id (p, depth + 1)
            else candidates
        | none => candidates
      else candidates
    (visited, queue, candidates)

/-- The `while queue` loop of `bfs_candidates_with_depth`, fuel-indexed
(see the header comment: the fuel supplied always exceeds the possible number
of iterations, so the zero-fuel branch is never taken). -/
def bfsLoop (g : KG) (start : String) (id_to_product : List (String × Product))
    (max_depth : Nat) :
    Nat → List String → List (String × Nat) → Nat → List (String × (Product × Nat)) →
    List (String × (Product × Nat)) × Nat
  | 0, _, _, traversed, candidates => (candidates, traversed)
  | _ + 1, _, [], traversed, candidates => (candidates, traversed)
  | fuel + 1, visited, (node, depth) :: rest, traversed, candidates =>
    if max_depth ≤ depth then
      bfsLoop g start id_to_product max_depth fuel visited rest (traversed + 1) candidates
    else
      let acc := (neighbors g node).foldl (bfsVisit start id_to_product depth)
        (visited, rest, candidates)
      bfsLoop g start id_to_product max_depth fuel acc.1 acc.2.1 (traversed + 1) acc.2.2

/-- `reasoning.py` — `bfs_candidates_with_depth`. -/
def bfs_candidates_with_depth (g : KG) (requested : Product)
    (id_to_product : List (String × Product)) (max_depth : Nat := 2) :
    List (String × (Product × Nat)) × Nat :=
  let start := product_to_node_id requested.product_id
  bfsLoop g start id_to_product max_depth (g.nodes.length + 2 * g.edges.length + 2)
    [start] [(start, 0)] 0 []

/-- `reasoning.py` — `score_candidate`. -/
def score_candidate (requested candidate : Product) (depth : Nat)
    (max_price : Option ℚ) (required_tags : List String)
    (preferred_brand : Option String) : Option ℚ × List String :=
  if !candidate.in_stock then (none, [])
  else if max_price.isSome && decide (max_price.getD 0 < candidate.price) then (none, [])
  else if !tagsSubset required_tags candidate.tags then (none, [])
  else
    let score : ℚ := 0
    let cat_score := category_closeness requested.category candidate.category
    let score := score + cat_score * 4.0
    let rule_tags : List String :=
      if cat_score = 1.0 then ["same_category"]
      else if cat_score > 0 then ["similar_category"]
      else []
    let (score, rule_tags) :=
      match preferred_brand with
      | some pb =>
        if candidate.brand = pb then (score + 3.0, rule_tags ++ ["preferred_brand_respected"])
        else (score - 0.5, rule_tags ++ ["different_brand_than_requested"])
      | none =>
        if candidate.brand = requested.brand then
          (score + 2.0, rule_tags ++ ["same_brand_as_requested"])
        else (score, rule_tags ++ ["different_brand_than_requested"])
    let (score, rule_tags) :=
      if candidate.price < requested.price then
        (score + 1.0, rule_tags ++ ["cheaper_option"])
      else if candidate.price = requested.price then
        (score + 0.5, rule_tags ++ ["same_price_as_requested"])
      else (score - 0.2, rule_tags ++ ["slightly_more_expensive"])
    let score := score + ((pymax 0 (3 - (depth : ℤ))) : ℚ) * 0.5
    let rule_tags := rule_tags ++ ["closer_in_graph"]
    let rule_tags :=
      if required_tags ≠ [] then rule_tags ++ ["all_required_tags_matched"] else rule_tags
    (some score, rule_tags)

/-- The exact-match entry stored in the result dict of `find_alternatives`. -/
structure ExactEntry where
  product : Product
  rule_tags : List String
  explanation : String
deriving DecidableEq, Repr

/-- The result dict of `find_alternatives`. -/
structure FindResult where
  requested : Option Product
  exact_match : Option ExactEntry
  alternatives : List Recommendation
  message : String
  traversed_nodes : Nat
deriving DecidableEq, Repr

/-- The `"Product not found."` result of `find_alternatives`. -/
def notFoundResult : FindResult :=
  { requested := none, exact_match := none, alternatives := [],
    message := "Product not found.", traversed_nodes := 0 }

/-- Stable insertion into a score-descending list: a later-enumerated
recommendation goes after every earlier one with the same score. -/
def insertByScoreDesc (x : Recommendation) : List Recommendation → List Recommendation
  | [] => [x]
  | y :: ys => if y.score < x.score then x :: y :: ys else y :: insertByScoreDesc x ys

/-- `scored.sort(key=lambda r: r.score, reverse=True)`: Python's sort is
stable, so it is embedded as the stable insertion sort with that ordering. -/
def sortByScoreDesc (l : List Recommendation) : List Recommendation :=
  l.foldl (fun acc r => insertByScoreDesc r acc) []

/-- `reasoning.py` — `find_alternatives`. The inner `id_to_product[pid]`
lookup cannot fail in Python (every value of `name_to_product_id` is a key of
`id_to_product`); its impossible `none` branch reuses the not-found result. -/
def find_alternatives (g : KG) (products : List Product)
    (requested_product_name : String) (max_price : Option ℚ)
    (required_tags : List String) (preferred_brand : Option String)
    (max_alternatives : Nat := 3) : FindResult :=
  let id_to_product := products.map (fun p => (p.product_id, p))
  let name_to_product_id := products.map (fun p => (p.name, p.product_id))
  match dictGet name_to_product_id requested_product_name with
  | none => notFoundResult
  | some pid =>
    match dictGet id_to_product pid with
    | none => notFoundResult
    | some requested =>
      let exactPair := check_exact_product_availability requested max_price
        required_tags preferred_brand
      let exact_match : Option ExactEntry :=
        match exactPair.1 with
        | some exact =>
          some ⟨exact, exactPair.2, build_explanation exactPair.2 required_tags⟩
        | none => none
      let bfsRes := bfs_candidates_with_depth g requested id_to_product 2
      let scored : List Recommendation := bfsRes.1.filterMap (fun kv =>
        let cand := kv.2.1
        let depth := kv.2.2
        match score_candidate requested cand depth max_price required_tags preferred_brand with
        | (some s, tags) =>
          some ⟨cand, s, tags, build_explanation tags required_tags⟩
        | (none, _) => none)
      let top := (sortByScoreDesc scored).take max_alternatives
      if top = [] then
        { requested := some requested, exact_match := exact_match, alternatives := [],
          message :=
            if exactPair.1.isSome then
              "Exact product is available, but no better alternatives were found."
            else "No alternatives found matching constraints.",
          traversed_nodes := bfsRes.2 }
      else
        { requested := some requested, exact_match := exact_match, alternatives := top,
          message :=
            if exactPair.1.isSome then
              "Exact product is available. Showing additional alternatives."
            else "Alternatives found.",
          traversed_nodes := bfsRes.2 }

/-! ## Characterization of `score_candidate` (proof infrastructure) -/

/-- The depth-independent part of an accepted candidate's score. -/
def scoreBase (requested candidate : Product) (preferred_brand : Option String) : ℚ :=
  category_closeness requested.category candidate.category * 4.0
  + (match preferred_brand with
     | some pb => if candidate.brand = pb then 3.0 else -0.5
     | none => if candidate.brand = requested.brand then 2.0 else 0)
  + (if candidate.price < requested.price then 1.0
     else if candidate.price = requested.price then 0.5 else -0.2)

/-- The graph-proximity bonus `max(0, 3 - depth) * 0.5`. -/
def proxBonus (depth : Nat) : ℚ :=
  ((pymax 0 (3 - (depth : ℤ))) : ℚ) * 0.5

/-- The rule tags of an accepted candidate. -/
def ruleTagList (requested candidate : Product) (required_tags : List String)
    (preferred_brand : Option String) : List String :=
  (if category_closeness requested.category candidate.category = 1.0 then ["same_category"]
   else if category_closeness requested.category candidate.category > 0 then ["similar_category"]
   else [])
  ++ (match preferred_brand with
      | some pb =>
        if candidate.brand = pb then ["preferred_brand_respected"]
        else ["different_brand_than_requested"]
      | none =>
        if candidate.brand = requested.brand then ["same_brand_as_requested"]
        else ["different_brand_than_requested"])
  ++ (if candidate.price < requested.price then ["cheaper_option"]
      else if candidate.price = requested.price then ["same_price_as_requested"]
      else ["slightly_more_expensive"])
  ++ ["closer_in_graph"]
  ++ (if required_tags ≠ [] then ["all_required_tags_matched"] else [])

/-- The hard-filter rejection condition of `score_candidate`. -/
def hardReject (candidate : Product) (max_price : Option ℚ)
    (required_tags : List String) : Bool :=
  !candidate.in_stock
  || (max_price.isSome && decide (max_price.getD 0 < candidate.price))
  || !tagsSubset required_tags candidate.tags

set_option maxHeartbeats 2000000 in
/-- `score_candidate` rejects exactly on `hardReject` and otherwise returns
the base score plus the proximity bonus, with the fixed tag list. -/
theorem score_candidate_eq (r c : Product) (d : Nat) (mp : Option ℚ)
    (rt : List String) (pb : Option String) :
    score_candidate r c d mp rt pb =
      if hardReject c mp rt then (none, [])
      else (some (scoreBase r c pb + proxBonus d), ruleTagList r c rt pb) := by
  by_cases h1 : c.in_stock = true
  case neg =>
    have h1' : c.in_stock = false := by revert h1; cases c.in_stock <;> simp
    simp [score_candidate, hardReject, h1']
  case pos =>
  by_cases h2 : (mp.isSome && decide (mp.getD 0 < c.price)) = true
  case pos =>
    simp [score_candidate, hardReject, h1, h2]
  case neg =>
  by_cases h3 : tagsSubset rt c.tags = true
  case neg =>
    have h3' : tagsSubset rt c.tags = false := by
      revert h3; cases tagsSubset rt c.tags <;> simp
    simp [score_candidate, hardReject, h1, h2, h3']
  case pos =>
    have hrej : hardReject c mp rt = false := by
      unfold hardReject
      rw [h1, h3]
      simp only [Bool.not_true, Bool.false_or, Bool.or_false]
      simpa using h2
    rw [hrej]
    simp only [score_candidate, h1, h2, h3, Bool.not_true, Bool.false_or, if_false,
      Bool.not_false, if_true, if_neg, ite_false, ite_true]
    simp only [Bool.false_eq_true, if_false]
    unfold scoreBase ruleTagList proxBonus
    rcases pb with _ | pb <;> split_ifs <;>
      simp only [Prod.mk.injEq, Option.some.injEq] <;>
      (try split_ifs) <;>
      (try simp only [Prod.mk.injEq, Option.some.injEq]) <;>
      exact ⟨by ring, by trivial⟩

/-- `hardReject` in propositional form. -/
lemma hardReject_eq_true_iff (c : Product) (mp : Option ℚ) (rt : List String) :
    hardReject c mp rt = true ↔
      (c.in_stock = false ∨ (∃ m, mp = some m ∧ m < c.price) ∨ ∃ t ∈ rt, t ∉ c.tags) := by
  unfold hardReject tagsSubset
  rcases mp with _ | m <;> cases hs : c.in_stock <;> simp

/-- C5: `score_candidate` returns no score exactly when the candidate is out
of stock, or a price ceiling is set and exceeded, or some required tag is
missing from the candidate's tags. -/
theorem scorer_rejects_iff (r c : Product) (d : Nat) (mp : Option ℚ)
    (rt : List String) (pb : Option String) :
    (score_candidate r c d mp rt pb).1 = none ↔
      (c.in_stock = false ∨ (∃ m, mp = some m ∧ m < c.price) ∨ ∃ t ∈ rt, t ∉ c.tags) := by
  rw [← hardReject_eq_true_iff c mp rt, score_candidate_eq]
  by_cases h : hardReject c mp rt = true <;> simp [h]

/-- `proxBonus` at depth 1. -/
lemma proxBonus_one : proxBonus 1 = 1.0 := by with_unfolding_all rfl

/-- `proxBonus` at depth 2. -/
lemma proxBonus_two : proxBonus 2 = 0.5 := by with_unfolding_all rfl

/-- `proxBonus` vanishes from depth 3 on. -/
lemma proxBonus_of_three_le (d : Nat) (hd : 3 ≤ d) : proxBonus d = 0 := by
  unfold proxBonus pymax
  split_ifs with h
  · have h3 : (3 - (d : ℤ)) = 0 := by omega
    rw [h3]
    norm_num
  · norm_num

/-- C7: all else equal, depth 1 scores exactly 0.5 above depth 2, depth 2 at
least matches any depth ≥ 3, and all depths ≥ 3 give identical results. -/
theorem scorer_depth_monotone (r c : Product) (mp : Option ℚ) (rt : List String)
    (pb : Option String) (s1 s2 s3 : ℚ) (d : Nat) (hd : 3 ≤ d)
    (h1 : (score_candidate r c 1 mp rt pb).1 = some s1)
    (h2 : (score_candidate r c 2 mp rt pb).1 = some s2)
    (h3 : (score_candidate r c d mp rt pb).1 = some s3) :
    s1 = s2 + 0.5 ∧ s2 ≥ s3 ∧
      score_candidate r c d mp rt pb = score_candidate r c 3 mp rt pb := by
  rw [score_candidate_eq] at h1 h2 h3
  rw [score_candidate_eq r c d, score_candidate_eq r c 3]
  by_cases h : hardReject c mp rt = true
  · rw [if_pos h] at h1
    simp at h1
  · rw [if_neg h] at h1 h2 h3
    simp only [Option.some.injEq] at h1 h2 h3
    rw [proxBonus_one] at h1
    rw [proxBonus_two] at h2
    rw [proxBonus_of_three_le d hd] at h3
    refine ⟨by rw [← h1, ← h2]; ring, by rw [← h2, ← h3]; norm_num, ?_⟩
    rw [proxBonus_of_three_le d hd, proxBonus_of_three_le 3 (by norm_num)]

/-- The product used to instantiate witness theorems. -/
def witnessProduct : Product :=
  { product_id := "W1", name := "W1", category := "Dairy", brand := "X",
    price := 1, in_stock := true, tags := [] }

/-- Witness for C7 at a concrete accepted candidate. -/
theorem scorer_depth_monotone_witness :
    (7.5 : ℚ) = 7.0 + 0.5 ∧ (7.0 : ℚ) ≥ 6.5 ∧
      score_candidate witnessProduct witnessProduct 3 none [] none =
        score_candidate witnessProduct witnessProduct 3 none [] none :=
  scorer_depth_monotone witnessProduct witnessProduct none [] none 7.5 7.0 6.5 3
    (by norm_num) (by with_unfolding_all rfl) (by with_unfolding_all rfl)
    (by with_unfolding_all rfl)

/-- C8: the explanation for rule tags `[same_category, cheaper_option]` with
no required tags is exactly the two fixed sentences joined by one space. -/
theorem explanation_same_category_cheaper :
    build_explanation ["same_category", "cheaper_option"] [] =
      "Same category. Cheaper than the requested product." := by
  with_unfolding_all rfl

/-- Product A of the C2 scenario (id chosen on the curated SIMILAR_TO pair
(P001, P003), which is how `build_kg` realises a SIMILAR_TO edge). -/
def scenarioProductA : Product :=
  { product_id := "P001", name := "A", category := "Dairy", brand := "X",
    price := 10, in_stock := true, tags := [] }

/-- Product B of the C2 scenario. -/
def scenarioProductB : Product :=
  { product_id := "P003", name := "B", category := "Dairy", brand := "X",
    price := 8, in_stock := true, tags := [] }

/-- C2: in the two-product Dairy catalog with a SIMILAR_TO edge, querying A
with no filters gives exact match A tagged `exact_match_available`, and the
single alternative B with the four rule tags in order and score 8.0. -/
theorem scenario_two_product_catalog :
    (find_alternatives (build_kg [scenarioProductA, scenarioProductB])
        [scenarioProductA, scenarioProductB] "A" none [] none).exact_match =
      some ⟨scenarioProductA, ["exact_match_available"],
        "The exact item is in stock and matches your filters."⟩ ∧
    (find_alternatives (build_kg [scenarioProductA, scenarioProductB])
        [scenarioProductA, scenarioProductB] "A" none [] none).alternatives =
      [⟨scenarioProductB, 8.0,
        ["same_category", "same_brand_as_requested", "cheaper_option", "closer_in_graph"],
        "Same category. Same brand as the requested product. " ++
          "Cheaper than the requested product. " ++
          "Close to the requested item in the knowledge graph."⟩] ∧
    (8.0 : ℚ) = 4.0 + 2.0 + 1.0 + 1.0 := by
  refine ⟨by with_unfolding_all rfl, by with_unfolding_all rfl, by norm_num⟩

/-- Membership in the three mutually exclusive brand rule tags. -/
def isBrandTag (t : String) : Bool :=
  t == "preferred_brand_respected" || t == "same_brand_as_requested" ||
    t == "different_brand_than_requested"

/-- Membership in the three mutually exclusive price rule tags. -/
def isPriceTag (t : String) : Bool :=
  t == "cheaper_option" || t == "same_price_as_requested" ||
    t == "slightly_more_expensive"

/-- Shape of the accepted tag list: non-empty, contains the proximity tag,
and has exactly one brand tag and one price tag. -/
lemma ruleTagList_spec (r c : Product) (rt : List String) (pb : Option String) :
    ruleTagList r c rt pb ≠ [] ∧
      "closer_in_graph" ∈ ruleTagList r c rt pb ∧
      (ruleTagList r c rt pb).countP isBrandTag = 1 ∧
      (ruleTagList r c rt pb).countP isPriceTag = 1 := by
  unfold ruleTagList
  rcases pb with _ | pb <;>
    by_cases hrt : rt ≠ [] <;>
    simp only [hrt, if_true, if_false, ite_true, ite_false] <;>
    split_ifs <;>
    with_unfolding_all decide

/-- C9: a rejected candidate carries no rule tags at all, and an accepted
candidate's tag list is non-empty: it contains `closer_in_graph`, exactly one
brand tag and exactly one price tag. -/
theorem scorer_tags_atomic (r c : Product) (d : Nat) (mp : Option ℚ)
    (rt : List String) (pb : Option String) :
    ((score_candidate r c d mp rt pb).1 = none →
      (score_candidate r c d mp rt pb).2 = []) ∧
    (∀ s : ℚ, (score_candidate r c d mp rt pb).1 = some s →
      (score_candidate r c d mp rt pb).2 ≠ [] ∧
        "closer_in_graph" ∈ (score_candidate r c d mp rt pb).2 ∧
        ((score_candidate r c d mp rt pb).2.countP isBrandTag = 1 ∧
          (score_candidate r c d mp rt pb).2.countP isPriceTag = 1)) := by
  rw [score_candidate_eq]
  by_cases h : hardReject c mp rt = true
  · rw [if_pos h]
    simp
  · rw [if_neg h]
    obtain ⟨hne, hmem, hbrand, hprice⟩ := ruleTagList_spec r c rt pb
    exact ⟨by simp, fun s _ => ⟨hne, hmem, hbrand, hprice⟩⟩

/-- Witness for C9 at a concrete accepted candidate. -/
theorem scorer_tags_atomic_witness :
    (score_candidate witnessProduct witnessProduct 1 none [] none).2 ≠ [] ∧
      "closer_in_graph" ∈ (score_candidate witnessProduct witnessProduct 1 none [] none).2 ∧
      ((score_candidate witnessProduct witnessProduct 1 none [] none).2.countP isBrandTag = 1 ∧
        (score_candidate witnessProduct witnessProduct 1 none [] none).2.countP isPriceTag = 1) :=
  (scorer_tags_atomic witnessProduct witnessProduct 1 none [] none).2 7.5
    (by with_unfolding_all rfl)

/-- The base score is between -0.7 and 8. -/
lemma scoreBase_bounds (r c : Product) (pb : Option String) :
    -0.7 ≤ scoreBase r c pb ∧ scoreBase r c pb ≤ 8 := by
  unfold scoreBase category_closeness
  rcases pb with _ | pb <;> dsimp only <;> split_ifs <;> constructor <;> norm_num

/-- The proximity bonus is between 0 and 1 for depths ≥ 1. -/
lemma proxBonus_bounds (d : Nat) (hd : 1 ≤ d) :
    0 ≤ proxBonus d ∧ proxBonus d ≤ 1 := by
  unfold proxBonus pymax
  split_ifs with h
  · have h1 : (0 : ℚ) ≤ ((3 - (d : ℤ) : ℤ) : ℚ) := by exact_mod_cast h
    have h2 : ((3 - (d : ℤ) : ℤ) : ℚ) ≤ 2 := by
      have : (3 - (d : ℤ)) ≤ 2 := by omega
      exact_mod_cast this
    constructor <;> nlinarith
  · norm_num

/-- C10: every accepted score at depth ≥ 1 lies in [-0.7, 9.0]. -/
theorem score_bounds (r c : Product) (d : Nat) (mp : Option ℚ)
    (rt : List String) (pb : Option String) (s : ℚ) (hd : 1 ≤ d)
    (h : (score_candidate r c d mp rt pb).1 = some s) :
    -0.7 ≤ s ∧ s ≤ 9.0 := by
  rw [score_candidate_eq] at h
  by_cases hrej : hardReject c mp rt = true
  · rw [if_pos hrej] at h
    simp at h
  · rw [if_neg hrej] at h
    simp only [Option.some.injEq] at h
    obtain ⟨hb1, hb2⟩ := scoreBase_bounds r c pb
    obtain ⟨hp1, hp2⟩ := proxBonus_bounds d hd
    constructor <;> (rw [← h]; linarith)

/-- Witness for C10 at a concrete accepted candidate. -/
theorem score_bounds_witness : (-0.7 : ℚ) ≤ 7.5 ∧ (7.5 : ℚ) ≤ 9.0 :=
  score_bounds witnessProduct witnessProduct 1 none [] none 7.5
    (by norm_num) (by with_unfolding_all rfl)

/-! ## Exact-match check and status messages (`find_alternatives`) -/

/-- The requested product satisfies every active filter. -/
def ExactOK (p : Product) (mp : Option ℚ) (rt : List String) (pb : Option String) : Prop :=
  p.in_stock = true ∧ (∀ m, mp = some m → p.price ≤ m) ∧ (∀ t ∈ rt, t ∈ p.tags) ∧
    (∀ b, pb = some b → p.brand = b)

/-- The tag list produced for an accepted exact match. -/
def exactTagList (rt : List String) (pb : Option String) : List String :=
  ["exact_match_available"]
    ++ (if pb.isSome then ["preferred_brand_respected"] else [])
    ++ (if rt ≠ [] then ["all_required_tags_matched"] else [])

/-- `tagsSubset` in propositional form. -/
lemma tagsSubset_iff (rt tags : List String) :
    tagsSubset rt tags = true ↔ ∀ t ∈ rt, t ∈ tags := by
  simp [tagsSubset]

/-- An exact match that satisfies every filter is accepted with the fixed
tags. -/
lemma check_exact_of_ok (p : Product) (mp : Option ℚ) (rt : List String)
    (pb : Option String) (h : ExactOK p mp rt pb) :
    check_exact_product_availability p mp rt pb = (some p, exactTagList rt pb) := by
  obtain ⟨hs, hm, ht, hb⟩ := h
  unfold check_exact_product_availability exactTagList
  have h1 : (pb.isSome && decide (pb ≠ some p.brand)) = false := by
    rcases pb with _ | b
    · rfl
    · simp [hb b rfl]
  have h2 : (mp.isSome && decide (mp.getD 0 < p.price)) = false := by
    rcases mp with _ | m
    · rfl
    · simp
      exact hm m rfl
  have h3 : tagsSubset rt p.tags = true := (tagsSubset_iff rt p.tags).mpr ht
  simp only [h1, h2, h3, hs, Bool.not_true, Bool.false_eq_true, if_false, ite_false]
  split_ifs <;> rfl

/-- An exact match that violates some filter is rejected. -/
lemma check_exact_of_not_ok (p : Product) (mp : Option ℚ) (rt : List String)
    (pb : Option String) (h : ¬ ExactOK p mp rt pb) :
    check_exact_product_availability p mp rt pb = (none, []) := by
  by_cases h1 : (pb.isSome && decide (pb ≠ some p.brand)) = true
  · unfold check_exact_product_availability
    rw [if_pos h1]
  · by_cases h2 : (mp.isSome && decide (mp.getD 0 < p.price)) = true
    · unfold check_exact_product_availability
      rw [if_neg h1, if_pos h2]
    · by_cases h3 : (!p.in_stock) = true
      · unfold check_exact_product_availability
        rw [if_neg h1, if_neg h2, if_pos h3]
      · by_cases h4 : (!tagsSubset rt p.tags) = true
        · unfold check_exact_product_availability
          rw [if_neg h1, if_neg h2, if_neg h3, if_pos h4]
        · exfalso
          apply h
          refine ⟨?_, ?_, ?_, ?_⟩
          · revert h3
            cases p.in_stock <;> simp
          · intro m hm
            subst hm
            refine le_of_not_lt fun hlt => h2 ?_
            simp [hlt]
          · refine (tagsSubset_iff rt p.tags).mp ?_
            revert h4
            cases tagsSubset rt p.tags <;> simp
          · intro b hb
            subst hb
            by_contra hne
            apply h1
            have hne' : some b ≠ some p.brand := by
              intro hx
              exact hne (Option.some.inj hx).symm
            simp [hne']

/-- Under the two dict lookups that resolve the requested name, the
`exact_match` field of `find_alternatives` is exactly the entry built from
`check_exact_product_availability`, whatever the BFS does. -/
lemma find_alternatives_exact_match (g : KG) (products : List Product)
    (name : String) (mp : Option ℚ) (rt : List String) (pb : Option String)
    (ma : Nat) (pid : String) (p : Product)
    (hname : dictGet (products.map fun q => (q.name, q.product_id)) name = some pid)
    (hid : dictGet (products.map fun q => (q.product_id, q)) pid = some p) :
    (find_alternatives g products name mp rt pb ma).exact_match =
      match (check_exact_product_availability p mp rt pb).1 with
      | some e => some ⟨e, (check_exact_product_availability p mp rt pb).2,
          build_explanation (check_exact_product_availability p mp rt pb).2 rt⟩
      | none => none := by
  simp only [find_alternatives, hname, hid]
  split <;> rfl

/-- C3: with the requested name resolving to `p`, the result's exact-match
entry is present with the fixed tags exactly when `p` is in stock, within any
price ceiling, carries all required tags, and matches any brand preference;
otherwise it is absent — independently of the BFS alternatives. -/
theorem exact_match_iff_filters (g : KG) (products : List Product)
    (name : String) (mp : Option ℚ) (rt : List String) (pb : Option String)
    (ma : Nat) (pid : String) (p : Product)
    (hname : dictGet (products.map fun q => (q.name, q.product_id)) name = some pid)
    (hid : dictGet (products.map fun q => (q.product_id, q)) pid = some p) :
    (ExactOK p mp rt pb →
      (find_alternatives g products name mp rt pb ma).exact_match =
        some ⟨p, exactTagList rt pb, build_explanation (exactTagList rt pb) rt⟩) ∧
    (¬ ExactOK p mp rt pb →
      (find_alternatives g products name mp rt pb ma).exact_match = none) := by
  constructor
  · intro hok
    rw [find_alternatives_exact_match g products name mp rt pb ma pid p hname hid,
      check_exact_of_ok p mp rt pb hok]
  · intro hnot
    rw [find_alternatives_exact_match g products name mp rt pb ma pid p hname hid,
      check_exact_of_not_ok p mp rt pb hnot]

/-- Witness for C3 on the concrete two-product scenario catalog. -/
theorem exact_match_iff_filters_witness :
    (ExactOK scenarioProductA none [] none →
      (find_alternatives (build_kg [scenarioProductA, scenarioProductB])
          [scenarioProductA, scenarioProductB] "A" none [] none 3).exact_match =
        some ⟨scenarioProductA, exactTagList [] none,
          build_explanation (exactTagList [] none) []⟩) ∧
    (¬ ExactOK scenarioProductA none [] none →
      (find_alternatives (build_kg [scenarioProductA, scenarioProductB])
          [scenarioProductA, scenarioProductB] "A" none [] none 3).exact_match = none) :=
  exact_match_iff_filters (build_kg [scenarioProductA, scenarioProductB])
    [scenarioProductA, scenarioProductB] "A" none [] none 3 "P001" scenarioProductA
    (by with_unfolding_all rfl) (by with_unfolding_all rfl)

/-- C1 (amended): with the requested name resolving, the status message is
determined by the two booleans (exact match present, alternatives returned)
via the code's four literal sentences. -/
theorem message_four_cases (g : KG) (products : List Product)
    (name : String) (mp : Option ℚ) (rt : List String) (pb : Option String)
    (ma : Nat) (pid : String) (p : Product)
    (hname : dictGet (products.map fun q => (q.name, q.product_id)) name = some pid)
    (hid : dictGet (products.map fun q => (q.product_id, q)) pid = some p) :
    (find_alternatives g products name mp rt pb ma).message =
      if (find_alternatives g products name mp rt pb ma).alternatives ≠ [] then
        if (find_alternatives g products name mp rt pb ma).exact_match.isSome then
          "Exact product is available. Showing additional alternatives."
        else "Alternatives found."
      else
        if (find_alternatives g products name mp rt pb ma).exact_match.isSome then
          "Exact product is available, but no better alternatives were found."
        else "No alternatives found matching constraints." := by
  simp only [find_alternatives, hname, hid]
  rcases hE : (check_exact_product_availability p mp rt pb).1 with _ | e <;>
    simp only [hE] <;> split <;> rename_i htop <;> simp [htop]

/-- Requested product of the C1 counterexample scenario: out of stock. -/
def cxProductA : Product :=
  { product_id := "Q1", name := "AX", category := "Dairy", brand := "X",
    price := 10, in_stock := false, tags := [] }

/-- In-stock cheaper same-category product of the C1 counterexample. -/
def cxProductB : Product :=
  { product_id := "Q2", name := "BX", category := "Dairy", brand := "Y",
    price := 8, in_stock := true, tags := [] }

/-- C1 counterexample: requested out of stock, one surviving alternative —
the claim's case "no exact and alternatives found" should read
"alternatives found", but the code's message is "Alternatives found.". -/
theorem message_claim_counterexample :
    (find_alternatives (build_kg [cxProductA, cxProductB])
        [cxProductA, cxProductB] "AX" none [] none).exact_match = none ∧
    (find_alternatives (build_kg [cxProductA, cxProductB])
        [cxProductA, cxProductB] "AX" none [] none).alternatives ≠ [] ∧
    (find_alternatives (build_kg [cxProductA, cxProductB])
        [cxProductA, cxProductB] "AX" none [] none).message ≠ "alternatives found" := by
  refine ⟨by with_unfolding_all rfl, ?_, ?_⟩
  · rw [show (find_alternatives (build_kg [cxProductA, cxProductB])
        [cxProductA, cxProductB] "AX" none [] none).alternatives =
        [⟨cxProductB, 5.5,
          ["same_category", "different_brand_than_requested", "cheaper_option",
            "closer_in_graph"],
          "Same category. Different brand than the requested product. " ++
            "Cheaper than the requested product. " ++
            "Close to the requested item in the knowledge graph."⟩]
      from by with_unfolding_all rfl]
    decide
  · rw [show (find_alternatives (build_kg [cxProductA, cxProductB])
        [cxProductA, cxProductB] "AX" none [] none).message = "Alternatives found."
      from by with_unfolding_all rfl]
    decide

/-- Witness for the amended C1 on the counterexample catalog. -/
theorem message_four_cases_witness :
    (find_alternatives (build_kg [cxProductA, cxProductB])
        [cxProductA, cxProductB] "AX" none [] none 3).message =
      if (find_alternatives (build_kg [cxProductA, cxProductB])
          [cxProductA, cxProductB] "AX" none [] none 3).alternatives ≠ [] then
        if (find_alternatives (build_kg [cxProductA, cxProductB])
            [cxProductA, cxProductB] "AX" none [] none 3).exact_match.isSome then
          "Exact product is available. Showing additional alternatives."
        else "Alternatives found."
      else
        if (find_alternatives (build_kg [cxProductA, cxProductB])
            [cxProductA, cxProductB] "AX" none [] none 3).exact_match.isSome then
          "Exact product is available, but no better alternatives were found."
        else "No alternatives found matching constraints." :=
  message_four_cases (build_kg [cxProductA, cxProductB]) [cxProductA, cxProductB]
    "AX" none [] none 3 "Q1" cxProductA
    (by with_unfolding_all rfl) (by with_unfolding_all rfl)

/-! ## BFS invariants (`bfs_candidates_with_depth`) -/

/-- Fold form of `dictGet`: a `some` result is a list entry or the seed. -/
lemma dictGet_foldl_mem {α : Type} (k : String) (v : α) :
    ∀ (l : List (String × α)) (acc : Option α),
      l.foldl (fun acc kv => if kv.1 = k then some kv.2 else acc) acc = some v →
      (k, v) ∈ l ∨ acc = some v := by
  intro l
  induction l with
  | nil => intro acc h'; exact Or.inr h'
  | cons hd tl ih =>
    intro acc h'
    rcases ih (if hd.1 = k then some hd.2 else acc) h' with h'' | h''
    · exact Or.inl (List.mem_cons_of_mem hd h'')
    · by_cases hk : hd.1 = k
      · rw [if_pos hk] at h''
        left
        have : hd = (k, v) := by
          cases hd
          cases h''
          simp_all
        rw [← this]
        exact List.mem_cons_self hd tl
      · rw [if_neg hk] at h''
        exact Or.inr h''

/-- A successful dict lookup comes from an entry of the list. -/
lemma dictGet_mem {α : Type} (l : List (String × α)) (k : String) (v : α)
    (h : dictGet l k = some v) : (k, v) ∈ l := by
  unfold dictGet at h
  rcases dictGet_foldl_mem k v l none h with h' | h'
  · exact h'
  · cases h'

/-- A successful `node_id_to_product` lookup decomposes into the prefix test
and the dict lookup of the last split segment. -/
lemma node_id_to_product_eq_some (nb : String) (itp : List (String × Product))
    (p : Product) (h : node_id_to_product nb itp = some p) :
    pyStartswith "product:" nb = true ∧
      dictGet itp ((pySplit nb "product:").getLastD "") = some p := by
  unfold node_id_to_product at h
  by_cases hs : pyStartswith "product:" nb = true
  · rw [if_pos hs] at h
    exact ⟨hs, h⟩
  · rw [if_neg hs] at h
    cases h

/-- Every entry of `assocSet l k v` is an entry of `l` or the pair `(k, v)`. -/
lemma assocSet_mem (l : List (String × (Product × Nat))) (k : String)
    (v : Product × Nat) (kv : String × (Product × Nat)) (h : kv ∈ assocSet l k v) :
    kv ∈ l ∨ kv = (k, v) := by
  unfold assocSet at h
  obtain ⟨orig, ho, he⟩ := List.mem_map.mp h
  by_cases hk : orig.1 = k
  · rw [if_pos hk] at he
    exact Or.inr he.symm
  · rw [if_neg hk] at he
    exact Or.inl (he ▸ ho)

/-- A queue entry after one `bfsVisit` step is an old entry or the newly
enqueued neighbor at `depth + 1`. -/
lemma bfsVisit_queue_mem (start : String) (itp : List (String × Product))
    (depth : Nat) (acc : BfsAcc) (nb : String) (q : String × Nat)
    (h : q ∈ (bfsVisit start itp depth acc nb).2.1) :
    q ∈ acc.2.1 ∨ q = (nb, depth + 1) := by
  rcases acc with ⟨vis, queue, cands⟩
  unfold bfsVisit at h
  dsimp only at h
  by_cases hv : nb ∈ vis
  · rw [if_pos hv] at h
    exact Or.inl h
  · rw [if_neg hv] at h
    dsimp only at h
    rcases List.mem_append.mp h with h' | h'
    · exact Or.inl h'
    · exact Or.inr (by simpa using h')

/-- A candidate entry after one `bfsVisit` step is an old entry or a fresh
record at `depth + 1` for a product node other than the start. -/
lemma bfsVisit_cands_mem (start : String) (itp : List (String × Product))
    (depth : Nat) (acc : BfsAcc) (nb : String) (kv : String × (Product × Nat))
    (h : kv ∈ (bfsVisit start itp depth acc nb).2.2) :
    kv ∈ acc.2.2 ∨
      ∃ p, node_id_to_product nb itp = some p ∧
        (pyStartswith "product:" nb && decide (nb ≠ start)) = true ∧
        kv = (p.product_id, (p, depth + 1)) := by
  rcases acc with ⟨vis, queue, cands⟩
  unfold bfsVisit at h
  dsimp only at h
  by_cases hv : nb ∈ vis
  · rw [if_pos hv] at h
    exact Or.inl h
  · rw [if_neg hv] at h
    dsimp only at h
    split at h
    · rename_i hg
      split at h
      · rename_i p hnp
        split at h
        · rename_i hag
          rcases List.mem_append.mp h with h' | h'
          · exact Or.inl h'
          · exact Or.inr ⟨p, hnp, hg, by simpa using h'⟩
        · rename_i prev hag
          split at h
          · rcases assocSet_mem cands p.product_id (p, depth + 1) kv h with h' | h'
            · exact Or.inl h'
            · exact Or.inr ⟨p, hnp, hg, h'⟩
          · exact Or.inl h
      · exact Or.inl h
    · exact Or.inl h

/-- All node identifiers appearing as edge endpoints. -/
def edgeEndpoints (g : KG) : List String :=
  g.edges.flatMap (fun e => [e.u, e.v])

/-- Neighbors are edge endpoints. -/
lemma neighbors_mem_endpoints (g : KG) (n nb : String) (h : nb ∈ neighbors g n) :
    nb ∈ edgeEndpoints g := by
  unfold neighbors at h
  obtain ⟨e, he, hval⟩ := List.mem_filterMap.mp h
  unfold edgeEndpoints
  refine List.mem_flatMap.mpr ⟨e, he, ?_⟩
  by_cases h1 : e.u = n
  · rw [if_pos h1] at hval
    simp [← Option.some.inj hval]
  · rw [if_neg h1] at hval
    by_cases h2 : e.v = n
    · rw [if_pos h2] at hval
      simp [← Option.some.inj hval]
    · rw [if_neg h2] at hval
      cases hval

/-- The neighbor fold preserves the depth invariants on queue and
candidates when the dequeued node's depth is below the bound. -/
lemma bfsFold_depth (start : String) (itp : List (String × Product))
    (depth md : Nat) (hdepth : depth < md) :
    ∀ (nbrs : List String) (acc : BfsAcc),
      (∀ q ∈ acc.2.1, q.2 ≤ md) →
      (∀ kv ∈ acc.2.2, 1 ≤ kv.2.2 ∧ kv.2.2 ≤ md) →
      (∀ q ∈ (nbrs.foldl (bfsVisit start itp depth) acc).2.1, q.2 ≤ md) ∧
      (∀ kv ∈ (nbrs.foldl (bfsVisit start itp depth) acc).2.2,
        1 ≤ kv.2.2 ∧ kv.2.2 ≤ md) := by
  intro nbrs
  induction nbrs with
  | nil => intro acc hq hc; exact ⟨hq, hc⟩
  | cons nb nbrs ih =>
    intro acc hq hc
    simp only [List.foldl_cons]
    apply ih
    · intro q hq'
      rcases bfsVisit_queue_mem start itp depth acc nb q hq' with h' | h'
      · exact hq q h'
      · rw [h']
        omega
    · intro kv hkv
      rcases bfsVisit_cands_mem start itp depth acc nb kv hkv with h' | ⟨p, _, _, hkv'⟩
      · exact hc kv h'
      · rw [hkv']
        constructor <;> (dsimp only; omega)

/-- The BFS loop only records candidates at depths in `[1, max_depth]`. -/
lemma bfsLoop_depth (g : KG) (start : String) (itp : List (String × Product))
    (md : Nat) :
    ∀ (fuel : Nat) (visited : List String) (queue : List (String × Nat))
      (traversed : Nat) (cands : List (String × (Product × Nat))),
      (∀ q ∈ queue, q.2 ≤ md) →
      (∀ kv ∈ cands, 1 ≤ kv.2.2 ∧ kv.2.2 ≤ md) →
      ∀ kv ∈ (bfsLoop g start itp md fuel visited queue traversed cands).1,
        1 ≤ kv.2.2 ∧ kv.2.2 ≤ md := by
  intro fuel
  induction fuel with
  | zero =>
    intro visited queue traversed cands _ hc kv hkv
    exact hc kv hkv
  | succ fuel ih =>
    intro visited queue traversed cands hq hc kv hkv
    match queue, hq with
    | [], hq =>
      exact hc kv hkv
    | (node, depth) :: rest, hq =>
      rw [bfsLoop] at hkv
      by_cases hd : md ≤ depth
      · rw [if_pos hd] at hkv
        exact ih visited rest (traversed + 1) cands
          (fun q hq' => hq q (List.mem_cons_of_mem _ hq')) hc kv hkv
      · rw [if_neg hd] at hkv
        have hfold := bfsFold_depth start itp depth md (by omega) (neighbors g node)
          (visited, rest, cands)
          (fun q hq' => hq q (List.mem_cons_of_mem _ hq')) hc
        exact ih _ _ (traversed + 1) _ hfold.1 hfold.2 kv hkv

/-- The neighbor fold never records a candidate keyed by the requested
product's id, provided the id→product map is well-formed and no processed
neighbor other than the start node resolves to the requested id. -/
lemma bfsFold_key (req : Product) (itp : List (String × Product)) (depth : Nat)
    (hwf : ∀ kv ∈ itp, (kv.2).product_id = kv.1) :
    ∀ (nbrs : List String) (acc : BfsAcc),
      (∀ nb ∈ nbrs, pyStartswith "product:" nb = true →
        (pySplit nb "product:").getLastD "" = req.product_id →
        nb = product_to_node_id req.product_id) →
      (∀ kv ∈ acc.2.2, kv.1 ≠ req.product_id) →
      ∀ kv ∈ (nbrs.foldl (bfsVisit (product_to_node_id req.product_id) itp depth) acc).2.2,
        kv.1 ≠ req.product_id := by
  intro nbrs
  induction nbrs with
  | nil => intro acc _ hc; exact hc
  | cons nb nbrs ih =>
    intro acc hres hc
    simp only [List.foldl_cons]
    apply ih
    · intro n hn
      exact hres n (List.mem_cons_of_mem nb hn)
    · intro kv hkv
      rcases bfsVisit_cands_mem (product_to_node_id req.product_id) itp depth acc nb kv hkv
        with h' | ⟨p, hnp, hg, hkv'⟩
      · exact hc kv h'
      · rw [hkv']
        obtain ⟨hpre, hdict⟩ := node_id_to_product_eq_some nb itp p hnp
        intro hkey
        have hseg : p.product_id = (pySplit nb "product:").getLastD "" :=
          hwf _ (dictGet_mem itp _ p hdict)
        have hnb : nb = product_to_node_id req.product_id :=
          hres nb (List.mem_cons_self nb nbrs) hpre (by rw [← hseg]; exact hkey)
        rw [Bool.and_eq_true] at hg
        obtain ⟨-, hne⟩ := hg
        exact (of_decide_eq_true hne) hnb

/-- The BFS loop never records a candidate keyed by the requested product's
id under the same side conditions, restricted to the graph's edge
endpoints. -/
lemma bfsLoop_key (g : KG) (req : Product) (itp : List (String × Product)) (md : Nat)
    (hwf : ∀ kv ∈ itp, (kv.2).product_id = kv.1)
    (hres : ∀ n ∈ edgeEndpoints g, pyStartswith "product:" n = true →
      (pySplit n "product:").getLastD "" = req.product_id →
      n = product_to_node_id req.product_id) :
    ∀ (fuel : Nat) (visited : List String) (queue : List (String × Nat))
      (traversed : Nat) (cands : List (String × (Product × Nat))),
      (∀ kv ∈ cands, kv.1 ≠ req.product_id) →
      ∀ kv ∈ (bfsLoop g (product_to_node_id req.product_id) itp md fuel visited queue
          traversed cands).1,
        kv.1 ≠ req.product_id := by
  intro fuel
  induction fuel with
  | zero =>
    intro visited queue traversed cands hc kv hkv
    exact hc kv hkv
  | succ fuel ih =>
    intro visited queue traversed cands hc kv hkv
    match queue with
    | [] =>
      exact hc kv hkv
    | (node, depth) :: rest =>
      rw [bfsLoop] at hkv
      by_cases hd : md ≤ depth
      · rw [if_pos hd] at hkv
        exact ih visited rest (traversed + 1) cands hc kv hkv
      · rw [if_neg hd] at hkv
        have hfold := bfsFold_key req itp depth hwf (neighbors g node)
          (visited, rest, cands)
          (fun nb hnb => hres nb (neighbors_mem_endpoints g node nb hnb)) hc
        exact ih _ _ (traversed + 1) _ hfold kv hkv

/-- C4 (amended): every recorded candidate has minimum depth in
`[1, max_depth]`; `max_depth = 0` yields no candidates; and — provided the
id→product map sends each id to a product bearing it and no edge endpoint
other than the start node resolves to the requested id — no candidate is
keyed by the requested product's id. -/
theorem bfs_candidate_bounds (g : KG) (req : Product)
    (itp : List (String × Product)) (d : Nat) :
    (∀ kv ∈ (bfs_candidates_with_depth g req itp d).1, 1 ≤ kv.2.2 ∧ kv.2.2 ≤ d) ∧
    (bfs_candidates_with_depth g req itp 0).1 = [] ∧
    ((∀ kv ∈ itp, (kv.2).product_id = kv.1) →
      (∀ n ∈ edgeEndpoints g, pyStartswith "product:" n = true →
        (pySplit n "product:").getLastD "" = req.product_id →
        n = product_to_node_id req.product_id) →
      ∀ kv ∈ (bfs_candidates_with_depth g req itp d).1, kv.1 ≠ req.product_id) := by
  have main : ∀ d', ∀ kv ∈ (bfs_candidates_with_depth g req itp d').1,
      1 ≤ kv.2.2 ∧ kv.2.2 ≤ d' := by
    intro d'
    unfold bfs_candidates_with_depth
    apply bfsLoop_depth g (product_to_node_id req.product_id) itp d'
    · intro q hq
      simp only [List.mem_singleton] at hq
      subst hq
      simp
    · intro kv hkv
      cases hkv
  refine ⟨main d, ?_, ?_⟩
  · rw [List.eq_nil_iff_forall_not_mem]
    intro kv hkv
    have := (main 0 kv hkv).1
    have := (main 0 kv hkv).2
    omega
  · intro hwf hres
    unfold bfs_candidates_with_depth
    apply bfsLoop_key g req itp d hwf hres
    intro kv hkv
    cases hkv

/-- Requested product of the C4 counterexample. -/
def advRequested : Product :=
  { product_id := "P1", name := "R", category := "Dairy", brand := "X",
    price := 1, in_stock := true, tags := [] }

/-- Second product whose id embeds `"product:"`, so that the last
`"product:"`-segment of its node identifier is the requested id. -/
def advOther : Product :=
  { product_id := "zproduct:P1", name := "Z", category := "Dairy", brand := "X",
    price := 1, in_stock := true, tags := [] }

/-- C4 counterexample: with a product id containing `"product:"`, the BFS
records the requested product itself as a candidate (via the node
`product:zproduct:P1`, whose last split segment is `P1`), so "the requested
product itself is never a candidate" fails as stated. -/
theorem bfs_requested_candidate_counterexample :
    ("P1", (advRequested, 2)) ∈
      (bfs_candidates_with_depth (build_kg [advRequested, advOther]) advRequested
        ([advRequested, advOther].map (fun p => (p.product_id, p))) 2).1 ∧
    advRequested.product_id = "P1" := by
  constructor
  · rw [show (bfs_candidates_with_depth (build_kg [advRequested, advOther]) advRequested
        ([advRequested, advOther].map (fun p => (p.product_id, p))) 2).1 =
        [("P1", (advRequested, 2))] from by with_unfolding_all rfl]
    exact List.mem_singleton.mpr rfl
  · rfl

set_option maxHeartbeats 1000000 in
/-- Witness for the amended C4 on the well-behaved two-product catalog. -/
theorem bfs_candidate_bounds_witness :
    (1 ≤ ("P003", (scenarioProductB, 1)).2.2 ∧ ("P003", (scenarioProductB, 1)).2.2 ≤ 2) ∧
    (bfs_candidates_with_depth (build_kg [scenarioProductA, scenarioProductB])
        scenarioProductA
        ([scenarioProductA, scenarioProductB].map (fun p => (p.product_id, p))) 0).1 = [] ∧
    ("P003", (scenarioProductB, 1)).1 ≠ scenarioProductA.product_id := by
  have H := bfs_candidate_bounds (build_kg [scenarioProductA, scenarioProductB])
      scenarioProductA
      ([scenarioProductA, scenarioProductB].map (fun p => (p.product_id, p))) 2
  have hmem : ("P003", (scenarioProductB, 1)) ∈
      (bfs_candidates_with_depth (build_kg [scenarioProductA, scenarioProductB])
        scenarioProductA
        ([scenarioProductA, scenarioProductB].map (fun p => (p.product_id, p))) 2).1 := by
    rw [show (bfs_candidates_with_depth (build_kg [scenarioProductA, scenarioProductB])
        scenarioProductA
        ([scenarioProductA, scenarioProductB].map (fun p => (p.product_id, p))) 2).1 =
        [("P003", (scenarioProductB, 1))] from by with_unfolding_all rfl]
    exact List.mem_singleton.mpr rfl
  refine ⟨H.1 ("P003", (scenarioProductB, 1)) hmem, H.2.1, ?_⟩
  refine H.2.2 ?_ ?_ ("P003", (scenarioProductB, 1)) hmem
  · decide
  · decide

/-! ## Graph-builder invariants (`build_kg`) -/

/-- Distinct namespaces give distinct node identifiers. -/
lemma prod_ne_cat (a b : String) : ("product:" ++ a) ≠ ("category:" ++ b) := by
  intro h
  have h' := congrArg String.data h
  rw [String.data_append, String.data_append,
    show "product:".data = ['p', 'r', 'o', 'd', 'u', 'c', 't', ':'] from rfl,
    show "category:".data = ['c', 'a', 't', 'e', 'g', 'o', 'r', 'y', ':'] from rfl] at h'
  injection h' with h1 _
  exact absurd h1 (by decide)

/-- Brand nodes are never product nodes. -/
lemma brand_ne_cat_node (a b : String) : ("brand:" ++ a) ≠ ("category:" ++ b) := by
  intro h
  have h' := congrArg String.data h
  rw [String.data_append, String.data_append,
    show "brand:".data = ['b', 'r', 'a', 'n', 'd', ':'] from rfl,
    show "category:".data = ['c', 'a', 't', 'e', 'g', 'o', 'r', 'y', ':'] from rfl] at h'
  injection h' with h1 _
  exact absurd h1 (by decide)

/-- Attribute nodes are never category nodes. -/
lemma attr_ne_cat_node (a b : String) : ("attr:" ++ a) ≠ ("category:" ++ b) := by
  intro h
  have h' := congrArg String.data h
  rw [String.data_append, String.data_append,
    show "attr:".data = ['a', 't', 't', 'r', ':'] from rfl,
    show "category:".data = ['c', 'a', 't', 'e', 'g', 'o', 'r', 'y', ':'] from rfl] at h'
  injection h' with h1 _
  exact absurd h1 (by decide)

/-- The product namespace is injective. -/
lemma prod_node_inj (a b : String) (h : ("product:" ++ a) = ("product:" ++ b)) :
    a = b := by
  have h' := congrArg String.data h
  rw [String.data_append, String.data_append] at h'
  have hd : a.data = b.data := List.append_cancel_left h'
  cases a
  cases b
  exact congrArg String.mk (by simpa using hd)

/-- `addNode` leaves the edges unchanged. -/
lemma addNode_edges (g : KG) (n : String) : (addNode g n).edges = g.edges := by
  unfold addNode
  split <;> rfl

/-- `addNode` preserves node-list `Nodup`. -/
lemma addNode_nodes_nodup (g : KG) (n : String) (h : g.nodes.Nodup) :
    (addNode g n).nodes.Nodup := by
  unfold addNode
  split
  · exact h
  · rename_i hn
    simp [List.nodup_append, h]
    exact hn

/-- `addNode` keeps existing nodes. -/
lemma addNode_nodes_mono (g : KG) (n m : String) (h : m ∈ g.nodes) :
    m ∈ (addNode g n).nodes := by
  unfold addNode
  split
  · exact h
  · exact List.mem_append_left _ h

/-- The added node is present after `addNode`. -/
lemma addNode_mem_self (g : KG) (n : String) : n ∈ (addNode g n).nodes := by
  unfold addNode
  split
  · assumption
  · exact List.mem_append_right _ (List.mem_singleton.mpr rfl)

/-- The nodes after `addEdge` are those after adding both endpoints. -/
lemma addEdge_nodes (g : KG) (u v t : String) :
    (addEdge g u v t).nodes = (addNode (addNode g u) v).nodes := by
  unfold addEdge
  dsimp only
  split <;> rfl

/-- `addEdge` keeps existing edges. -/
lemma addEdge_edges_mono (g : KG) (u v t : String) (e : Edge) (h : e ∈ g.edges) :
    e ∈ (addEdge g u v t).edges := by
  unfold addEdge
  dsimp only
  rw [addNode_edges, addNode_edges]
  split
  · rw [addNode_edges, addNode_edges]
    exact h
  · exact List.mem_append_left _ h

/-- Case analysis on `addEdge`: either some edge already connected the pair
and nothing changes, or the new edge is appended. -/
lemma addEdge_edges_cases (g : KG) (u v t : String) :
    (addEdge g u v t).edges = g.edges ∨
      ((addEdge g u v t).edges = g.edges ++ [⟨u, v, t⟩] ∧
        ∀ e ∈ g.edges, edgeEq e u v = false) := by
  unfold addEdge
  dsimp only
  rw [addNode_edges, addNode_edges]
  split
  · exact Or.inl (by rw [addNode_edges, addNode_edges])
  · rename_i hany
    refine Or.inr ⟨rfl, ?_⟩
    intro e he
    by_contra hne
    exact hany (List.any_eq_true.mpr ⟨e, he, by revert hne; cases edgeEq e u v <;> simp⟩)

/-- If no existing edge connects the pair, `addEdge` appends the new edge. -/
lemma addEdge_of_not_present (g : KG) (u v t : String)
    (h : ∀ e ∈ g.edges, edgeEq e u v = false) :
    (addEdge g u v t).edges = g.edges ++ [⟨u, v, t⟩] := by
  unfold addEdge
  dsimp only
  rw [addNode_edges, addNode_edges]
  split
  · rename_i hany
    exfalso
    simp only [List.any_eq_true] at hany
    obtain ⟨e, he, heq⟩ := hany
    rw [h e he] at heq
    cases heq
  · rfl

/-- Every edge after `addEdge` is an old edge or the new one. -/
lemma addEdge_new_mem (g : KG) (u v t : String) (e : Edge)
    (h : e ∈ (addEdge g u v t).edges) : e ∈ g.edges ∨ e = ⟨u, v, t⟩ := by
  rcases addEdge_edges_cases g u v t with hc | hc
  · exact Or.inl (hc ▸ h)
  · rw [hc.1] at h
    rcases List.mem_append.mp h with h' | h'
    · exact Or.inl h'
    · exact Or.inr (List.mem_singleton.mp h')

/-- `addEdge` preserves edge-list `Nodup`. -/
lemma addEdge_edges_nodup (g : KG) (u v t : String) (h : g.edges.Nodup) :
    (addEdge g u v t).edges.Nodup := by
  rcases addEdge_edges_cases g u v t with hc | hc
  · rw [hc]
    exact h
  · rw [hc.1]
    simp [List.nodup_append, h]
    intro hmem
    have := hc.2 _ hmem
    unfold edgeEq at this
    simp at this

/-- `addEdge` preserves node `Nodup`. -/
lemma addEdge_nodes_nodup (g : KG) (u v t : String) (h : g.nodes.Nodup) :
    (addEdge g u v t).nodes.Nodup := by
  rw [addEdge_nodes]
  exact addNode_nodes_nodup _ _ (addNode_nodes_nodup _ _ h)

/-- `addEdge` keeps existing nodes. -/
lemma addEdge_nodes_mono (g : KG) (u v t n : String) (h : n ∈ g.nodes) :
    n ∈ (addEdge g u v t).nodes := by
  rw [addEdge_nodes]
  exact addNode_nodes_mono _ _ _ (addNode_nodes_mono _ _ _ h)

/-- The first endpoint is a node after `addEdge`. -/
lemma addEdge_mem_u (g : KG) (u v t : String) : u ∈ (addEdge g u v t).nodes := by
  rw [addEdge_nodes]
  exact addNode_nodes_mono _ _ _ (addNode_mem_self _ _)

/-- The second endpoint is a node after `addEdge`. -/
lemma addEdge_mem_v (g : KG) (u v t : String) : v ∈ (addEdge g u v t).nodes := by
  rw [addEdge_nodes]
  exact addNode_mem_self _ _

/-- Shape of every edge present while/after the product loop runs: an IS_A
edge of a processed product, a HAS_BRAND/HAS_ATTRIBUTE edge from a product
node into the brand/attribute namespace, or a SIMILAR_TO edge between two
product nodes. -/
def EdgeShape (done : List Product) (e : Edge) : Prop :=
  (e.ty = "IS_A" ∧ ∃ p ∈ done,
    e = ⟨"product:" ++ p.product_id, "category:" ++ p.category, "IS_A"⟩) ∨
  ((e.ty = "HAS_BRAND" ∨ e.ty = "HAS_ATTRIBUTE") ∧
    ∃ a b, e.u = "product:" ++ a ∧ (e.v = "brand:" ++ b ∨ e.v = "attr:" ++ b)) ∨
  (e.ty = "SIMILAR_TO" ∧ ∃ a b, e.u = "product:" ++ a ∧ e.v = "product:" ++ b)

/-- `EdgeShape` is monotone in the processed-product list. -/
lemma edgeShape_mono (done done' : List Product) (e : Edge)
    (hsub : ∀ p ∈ done, p ∈ done') (h : EdgeShape done e) : EdgeShape done' e := by
  rcases h with ⟨ht, p, hp, he⟩ | h | h
  · exact Or.inl ⟨ht, p, hsub p hp, he⟩
  · exact Or.inr (Or.inl h)
  · exact Or.inr (Or.inr h)

/-- Invariant carried through the product loop of `build_kg`. -/
def KGInv (done : List Product) (g : KG) : Prop :=
  g.nodes.Nodup ∧ g.edges.Nodup ∧
  (∀ p ∈ done,
    ("product:" ++ p.product_id) ∈ g.nodes ∧
    ("category:" ++ p.category) ∈ g.nodes ∧
    ("brand:" ++ p.brand) ∈ g.nodes ∧
    (∀ t ∈ p.tags, ("attr:" ++ t) ∈ g.nodes) ∧
    (⟨"product:" ++ p.product_id, "category:" ++ p.category, "IS_A"⟩ : Edge) ∈ g.edges) ∧
  (∀ e ∈ g.edges, EdgeShape done e)

/-- Node `Nodup` is preserved by the attribute fold. -/
lemma attrFold_nodes_nodup (pid : String) :
    ∀ (tags : List String) (g : KG), g.nodes.Nodup →
      (tags.foldl (fun g tag => addEdge g pid ("attr:" ++ tag) "HAS_ATTRIBUTE") g).nodes.Nodup := by
  intro tags
  induction tags with
  | nil => exact fun g h => h
  | cons t ts ih => exact fun g h => ih _ (addEdge_nodes_nodup _ _ _ _ h)

/-- Edge `Nodup` is preserved by the attribute fold. -/
lemma attrFold_edges_nodup (pid : String) :
    ∀ (tags : List String) (g : KG), g.edges.Nodup →
      (tags.foldl (fun g tag => addEdge g pid ("attr:" ++ tag) "HAS_ATTRIBUTE") g).edges.Nodup := by
  intro tags
  induction tags with
  | nil => exact fun g h => h
  | cons t ts ih => exact fun g h => ih _ (addEdge_edges_nodup _ _ _ _ h)

/-- Nodes survive the attribute fold. -/
lemma attrFold_nodes_mono (pid : String) :
    ∀ (tags : List String) (g : KG) (n : String), n ∈ g.nodes →
      n ∈ (tags.foldl (fun g tag => addEdge g pid ("attr:" ++ tag) "HAS_ATTRIBUTE") g).nodes := by
  intro tags
  induction tags with
  | nil => exact fun g n h => h
  | cons t ts ih => exact fun g n h => ih _ _ (addEdge_nodes_mono _ _ _ _ _ h)

/-- Edges survive the attribute fold. -/
lemma attrFold_edges_mono (pid : String) :
    ∀ (tags : List String) (g : KG) (e : Edge), e ∈ g.edges →
      e ∈ (tags.foldl (fun g tag => addEdge g pid ("attr:" ++ tag) "HAS_ATTRIBUTE") g).edges := by
  intro tags
  induction tags with
  | nil => exact fun g e h => h
  | cons t ts ih => exact fun g e h => ih _ _ (addEdge_edges_mono _ _ _ _ _ h)

/-- Every listed attribute has its node after the attribute fold. -/
lemma attrFold_attr_mem (pid : String) :
    ∀ (tags : List String) (g : KG) (t : String), t ∈ tags →
      ("attr:" ++ t) ∈
        (tags.foldl (fun g tag => addEdge g pid ("attr:" ++ tag) "HAS_ATTRIBUTE") g).nodes := by
  intro tags
  induction tags with
  | nil => intro g t h; cases h
  | cons t0 ts ih =>
    intro g t h
    rcases List.mem_cons.mp h with h' | h'
    · subst h'
      exact attrFold_nodes_mono pid ts _ _ (addEdge_mem_v _ _ _ _)
    · exact ih _ _ h'

/-- Every edge after the attribute fold is an old edge or a HAS_ATTRIBUTE
edge from `pid` into the attribute namespace. -/
lemma attrFold_new_mem (pid : String) :
    ∀ (tags : List String) (g : KG) (e : Edge),
      e ∈ (tags.foldl (fun g tag => addEdge g pid ("attr:" ++ tag) "HAS_ATTRIBUTE") g).edges →
      e ∈ g.edges ∨ ∃ b, e = ⟨pid, "attr:" ++ b, "HAS_ATTRIBUTE"⟩ := by
  intro tags
  induction tags with
  | nil => exact fun g e h => Or.inl h
  | cons t0 ts ih =>
    intro g e h
    rcases ih _ e h with h' | h'
    · rcases addEdge_new_mem _ _ _ _ _ h' with h'' | h''
      · exact Or.inl h''
      · exact Or.inr ⟨t0, h''⟩
    · exact Or.inr h'

/-- Processing one product preserves the invariant, provided its id is new. -/
lemma addProductToKG_inv (done : List Product) (g : KG) (p : Product)
    (hinv : KGInv done g) (hfresh : ∀ q ∈ done, q.product_id ≠ p.product_id) :
    KGInv (done ++ [p]) (addProductToKG g p) := by
  obtain ⟨hnd, hed, hmem, hshape⟩ := hinv
  have hguard : ∀ e ∈ (addNode g ("product:" ++ p.product_id)).edges,
      edgeEq e ("product:" ++ p.product_id) ("category:" ++ p.category) = false := by
    rw [addNode_edges]
    intro e he
    rcases hshape e he with ⟨ht, q, hq, hqe⟩ | ⟨ht, a, b, hu, hv⟩ | ⟨ht, a, b, hu, hv⟩
    · subst hqe
      have h1 : ¬ ("product:" ++ q.product_id = "product:" ++ p.product_id) := by
        intro hx
        exact hfresh q hq (prod_node_inj _ _ hx)
      have h2 : ¬ ("product:" ++ q.product_id = "category:" ++ p.category) :=
        prod_ne_cat _ _
      simp [edgeEq, h1, h2]
    · have h2 : ¬ (e.v = "category:" ++ p.category) := by
        rcases hv with hv | hv
        · rw [hv]; exact brand_ne_cat_node _ _
        · rw [hv]; exact attr_ne_cat_node _ _
      have h3 : ¬ (e.u = "category:" ++ p.category) := by
        rw [hu]; exact prod_ne_cat _ _
      simp [edgeEq, h2, h3]
    · have h2 : ¬ (e.v = "category:" ++ p.category) := by
        rw [hv]; exact prod_ne_cat _ _
      have h3 : ¬ (e.u = "category:" ++ p.category) := by
        rw [hu]; exact prod_ne_cat _ _
      simp [edgeEq, h2, h3]
  have hA : (addEdge (addNode g ("product:" ++ p.product_id)) ("product:" ++ p.product_id)
      ("category:" ++ p.category) "IS_A").edges =
      g.edges ++ [⟨"product:" ++ p.product_id, "category:" ++ p.category, "IS_A"⟩] := by
    rw [addEdge_of_not_present _ _ _ _ hguard, addNode_edges]
  have hdef : addProductToKG g p =
      p.tags.foldl (fun g tag => addEdge g ("product:" ++ p.product_id) ("attr:" ++ tag)
        "HAS_ATTRIBUTE")
        (addEdge (addEdge (addNode g ("product:" ++ p.product_id))
          ("product:" ++ p.product_id) ("category:" ++ p.category) "IS_A")
          ("product:" ++ p.product_id) ("brand:" ++ p.brand) "HAS_BRAND") := rfl
  rw [hdef]
  refine ⟨?_, ?_, ?_, ?_⟩
  · exact attrFold_nodes_nodup _ _ _ (addEdge_nodes_nodup _ _ _ _ (addEdge_nodes_nodup _ _ _ _
      (addNode_nodes_nodup _ _ hnd)))
  · refine attrFold_edges_nodup _ _ _ (addEdge_edges_nodup _ _ _ _ (addEdge_edges_nodup _ _ _ _ ?_))
    rw [addNode_edges]
    exact hed
  · intro q hq
    rcases List.mem_append.mp hq with hq' | hq'
    · obtain ⟨hm1, hm2, hm3, hm4, hm5⟩ := hmem q hq'
      refine ⟨?_, ?_, ?_, ?_, ?_⟩
      · exact attrFold_nodes_mono _ _ _ _ (addEdge_nodes_mono _ _ _ _ _ (addEdge_nodes_mono _ _ _ _ _
          (addNode_nodes_mono _ _ _ hm1)))
      · exact attrFold_nodes_mono _ _ _ _ (addEdge_nodes_mono _ _ _ _ _ (addEdge_nodes_mono _ _ _ _ _
          (addNode_nodes_mono _ _ _ hm2)))
      · exact attrFold_nodes_mono _ _ _ _ (addEdge_nodes_mono _ _ _ _ _ (addEdge_nodes_mono _ _ _ _ _
          (addNode_nodes_mono _ _ _ hm3)))
      · intro t ht
        exact attrFold_nodes_mono _ _ _ _ (addEdge_nodes_mono _ _ _ _ _ (addEdge_nodes_mono _ _ _ _ _
          (addNode_nodes_mono _ _ _ (hm4 t ht))))
      · refine attrFold_edges_mono _ _ _ _ (addEdge_edges_mono _ _ _ _ _ ?_)
        rw [hA]
        exact List.mem_append_left _ hm5
    · rw [List.mem_singleton.mp hq']
      refine ⟨?_, ?_, ?_, ?_, ?_⟩
      · exact attrFold_nodes_mono _ _ _ _ (addEdge_nodes_mono _ _ _ _ _ (addEdge_nodes_mono _ _ _ _ _
          (addNode_mem_self _ _)))
      · exact attrFold_nodes_mono _ _ _ _ (addEdge_nodes_mono _ _ _ _ _ (addEdge_mem_v _ _ _ _))
      · exact attrFold_nodes_mono _ _ _ _ (addEdge_mem_v _ _ _ _)
      · intro t ht
        exact attrFold_attr_mem _ _ _ _ ht
      · refine attrFold_edges_mono _ _ _ _ (addEdge_edges_mono _ _ _ _ _ ?_)
        rw [hA]
        exact List.mem_append_right _ (List.mem_singleton.mpr rfl)
  · intro e he
    rcases attrFold_new_mem _ _ _ e he with he' | ⟨b, hb⟩
    · rcases addEdge_new_mem _ _ _ _ _ he' with he'' | he''
      · rw [hA] at he''
        rcases List.mem_append.mp he'' with he3 | he3
        · exact edgeShape_mono done (done ++ [p]) e (fun q hq => List.mem_append_left _ hq)
            (hshape e he3)
        · rw [List.mem_singleton.mp he3]
          exact Or.inl ⟨rfl, p, List.mem_append_right _ (List.mem_singleton.mpr rfl), rfl⟩
      · rw [he'']
        exact Or.inr (Or.inl ⟨Or.inl rfl, p.product_id, p.brand, rfl, Or.inl rfl⟩)
    · rw [hb]
      exact Or.inr (Or.inl ⟨Or.inr rfl, p.product_id, b, rfl, Or.inr rfl⟩)

/-- With globally `Nodup` ids, a later product's id is fresh. -/
lemma fresh_of_nodup (done : List Product) (p : Product) (rest : List Product)
    (h : ((done ++ p :: rest).map Product.product_id).Nodup) :
    ∀ q ∈ done, q.product_id ≠ p.product_id := by
  intro q hq heq
  rw [List.map_append] at h
  obtain ⟨-, -, hdisj⟩ := List.nodup_append.mp h
  exact hdisj (List.mem_map_of_mem _ hq) (by simp [heq])

/-- The whole product loop preserves the invariant. -/
lemma kg_fold :
    ∀ (todo done : List Product) (g : KG),
      ((done ++ todo).map Product.product_id).Nodup →
      KGInv done g → KGInv (done ++ todo) (todo.foldl addProductToKG g) := by
  intro todo
  induction todo with
  | nil => intro done g _ h; simpa using h
  | cons p ts ih =>
    intro done g hnd hinv
    have hstep := addProductToKG_inv done g p hinv (fresh_of_nodup done p ts hnd)
    have hnd' : (((done ++ [p]) ++ ts).map Product.product_id).Nodup := by
      rw [List.append_assoc]
      simpa using hnd
    have hres := ih (done ++ [p]) (addProductToKG g p) hnd' hstep
    rw [List.append_assoc] at hres
    simpa using hres

/-- Node folds (`add_node` loops for brands and attributes) keep the edges. -/
lemma nodeFold_edges (f : String → String) :
    ∀ (l : List String) (g : KG),
      (l.foldl (fun g b => addNode g (f b)) g).edges = g.edges := by
  intro l
  induction l with
  | nil => exact fun g => rfl
  | cons b bs ih => exact fun g => (ih _).trans (addNode_edges _ _)

/-- Node folds preserve node `Nodup`. -/
lemma nodeFold_nodup (f : String → String) :
    ∀ (l : List String) (g : KG), g.nodes.Nodup →
      (l.foldl (fun g b => addNode g (f b)) g).nodes.Nodup := by
  intro l
  induction l with
  | nil => exact fun g h => h
  | cons b bs ih => exact fun g h => ih _ (addNode_nodes_nodup _ _ h)

/-- The SIMILAR_TO fold preserves node `Nodup`. -/
lemma simFold_nodes_nodup (pids : List String) :
    ∀ (pairs : List (String × String)) (g : KG), g.nodes.Nodup →
      (pairs.foldl (addSimilarEdge pids) g).nodes.Nodup := by
  intro pairs
  induction pairs with
  | nil => exact fun g h => h
  | cons ab abs ih =>
    intro g h
    apply ih
    unfold addSimilarEdge
    split
    · exact addEdge_nodes_nodup _ _ _ _ h
    · exact h

/-- The SIMILAR_TO fold preserves edge `Nodup`. -/
lemma simFold_edges_nodup (pids : List String) :
    ∀ (pairs : List (String × String)) (g : KG), g.edges.Nodup →
      (pairs.foldl (addSimilarEdge pids) g).edges.Nodup := by
  intro pairs
  induction pairs with
  | nil => exact fun g h => h
  | cons ab abs ih =>
    intro g h
    apply ih
    unfold addSimilarEdge
    split
    · exact addEdge_edges_nodup _ _ _ _ h
    · exact h

/-- Nodes survive the SIMILAR_TO fold. -/
lemma simFold_nodes_mono (pids : List String) :
    ∀ (pairs : List (String × String)) (g : KG) (n : String), n ∈ g.nodes →
      n ∈ (pairs.foldl (addSimilarEdge pids) g).nodes := by
  intro pairs
  induction pairs with
  | nil => exact fun g n h => h
  | cons ab abs ih =>
    intro g n h
    apply ih
    unfold addSimilarEdge
    split
    · exact addEdge_nodes_mono _ _ _ _ _ h
    · exact h

/-- Edges survive the SIMILAR_TO fold. -/
lemma simFold_edges_mono (pids : List String) :
    ∀ (pairs : List (String × String)) (g : KG) (e : Edge), e ∈ g.edges →
      e ∈ (pairs.foldl (addSimilarEdge pids) g).edges := by
  intro pairs
  induction pairs with
  | nil => exact fun g e h => h
  | cons ab abs ih =>
    intro g e h
    apply ih
    unfold addSimilarEdge
    split
    · exact addEdge_edges_mono _ _ _ _ _ h
    · exact h

/-- The SIMILAR_TO fold preserves the edge-shape characterization. -/
lemma simFold_shape (done : List Product) (pids : List String) :
    ∀ (pairs : List (String × String)) (g : KG),
      (∀ e ∈ g.edges, EdgeShape done e) →
      ∀ e ∈ (pairs.foldl (addSimilarEdge pids) g).edges, EdgeShape done e := by
  intro pairs
  induction pairs with
  | nil => exact fun g h => h
  | cons ab abs ih =>
    intro g h
    apply ih
    intro e he
    revert he
    unfold addSimilarEdge
    split
    · intro he
      rcases addEdge_new_mem _ _ _ _ _ he with he' | he'
      · exact h e he'
      · rw [he']
        exact Or.inr (Or.inr ⟨rfl, ab.1, ab.2, rfl, rfl⟩)
    · exact h e

/-- A `Nodup` list all of whose elements equal a member is that singleton. -/
lemma nodup_all_eq_singleton {α : Type} (l : List α) (a : α) (hnd : l.Nodup)
    (hmem : a ∈ l) (hall : ∀ x ∈ l, x = a) : l = [a] := by
  cases l with
  | nil => cases hmem
  | cons x xs =>
    have hx : x = a := hall x (List.mem_cons_self x xs)
    subst hx
    cases xs with
    | nil => rfl
    | cons y ys =>
      exfalso
      have hy : y = x := hall y (by simp)
      exact (List.nodup_cons.mp hnd).1 (by rw [← hy]; simp)

/-- In a graph whose edges satisfy the shape characterization, the IS_A
edges incident to a product's node form exactly its own IS_A edge. -/
lemma isa_filter (g4 : KG) (products : List Product)
    (hids : (products.map Product.product_id).Nodup)
    (hnodup : g4.edges.Nodup)
    (hshape : ∀ e ∈ g4.edges, EdgeShape products e)
    (p : Product) (hp : p ∈ products)
    (hmem : (⟨"product:" ++ p.product_id, "category:" ++ p.category, "IS_A"⟩ : Edge) ∈ g4.edges) :
    g4.edges.filter (fun e => e.ty == "IS_A" &&
        (e.u == "product:" ++ p.product_id || e.v == "product:" ++ p.product_id)) =
      [⟨"product:" ++ p.product_id, "category:" ++ p.category, "IS_A"⟩] := by
  apply nodup_all_eq_singleton
  · exact hnodup.filter _
  · exact List.mem_filter.mpr ⟨hmem, by simp⟩
  · intro e hef
    obtain ⟨hee, hpred⟩ := List.mem_filter.mp hef
    simp only [Bool.and_eq_true, beq_iff_eq, Bool.or_eq_true] at hpred
    obtain ⟨hty, hinc⟩ := hpred
    rcases hshape e hee with ⟨-, q, hq, hqe⟩ | ⟨hty2, -⟩ | ⟨hty2, -⟩
    · subst hqe
      rcases hinc with hu | hv
      · simp only at hu
        have hqp : q = p := List.inj_on_of_nodup_map hids hq hp (prod_node_inj _ _ hu)
        rw [hqp]
      · simp only at hv
        exact absurd hv.symm (prod_ne_cat _ _)
    · rw [hty] at hty2
      rcases hty2 with h' | h' <;> exact absurd h'.symm (by decide)
    · rw [hty] at hty2
      exact absurd hty2.symm (by decide)

/-- C6 (amended): with every category in the fixed enumeration and pairwise
distinct product ids, the built graph has `Nodup` nodes with exactly one node
per product id, per used category, brand and tag value, and for each product
exactly one incident IS_A edge — to its own category node. -/
theorem build_kg_unique_nodes_and_isa (products : List Product)
    (hcat : ∀ p ∈ products, p.category ∈ CATEGORIES)
    (hids : (products.map Product.product_id).Nodup) :
    (build_kg products).nodes.Nodup ∧
    (∀ p ∈ products,
      (build_kg products).nodes.count ("product:" ++ p.product_id) = 1 ∧
      (build_kg products).nodes.count ("category:" ++ p.category) = 1 ∧
      (build_kg products).nodes.count ("brand:" ++ p.brand) = 1 ∧
      (∀ t ∈ p.tags, (build_kg products).nodes.count ("attr:" ++ t) = 1) ∧
      (build_kg products).edges.filter (fun e => e.ty == "IS_A" &&
          (e.u == "product:" ++ p.product_id || e.v == "product:" ++ p.product_id)) =
        [⟨"product:" ++ p.product_id, "category:" ++ p.category, "IS_A"⟩]) := by
  have hinv2 : KGInv []
      ((sortedSet (products.flatMap Product.tags)).foldl (fun g a => addNode g ("attr:" ++ a))
        ((sortedSet (products.map Product.brand)).foldl (fun g b => addNode g ("brand:" ++ b))
          ⟨CATEGORIES.map (fun c => "category:" ++ c), []⟩)) := by
    have hedges : ((sortedSet (products.flatMap Product.tags)).foldl
        (fun g a => addNode g ("attr:" ++ a))
        ((sortedSet (products.map Product.brand)).foldl (fun g b => addNode g ("brand:" ++ b))
          ⟨CATEGORIES.map (fun c => "category:" ++ c), []⟩)).edges = [] := by
      rw [nodeFold_edges (fun a => "attr:" ++ a), nodeFold_edges (fun b => "brand:" ++ b)]
    refine ⟨?_, ?_, ?_, ?_⟩
    · refine nodeFold_nodup (fun a => "attr:" ++ a) _ _
        (nodeFold_nodup (fun b => "brand:" ++ b) _ _ ?_)
      decide
    · rw [hedges]
      exact List.nodup_nil
    · intro p hp
      cases hp
    · intro e he
      rw [hedges] at he
      cases he
  have hinv3 : KGInv products (products.foldl addProductToKG
      ((sortedSet (products.flatMap Product.tags)).foldl (fun g a => addNode g ("attr:" ++ a))
        ((sortedSet (products.map Product.brand)).foldl (fun g b => addNode g ("brand:" ++ b))
          ⟨CATEGORIES.map (fun c => "category:" ++ c), []⟩))) := by
    have := kg_fold products [] _ (by simpa using hids) hinv2
    simpa using this
  obtain ⟨h3nd, h3ed, h3mem, h3shape⟩ := hinv3
  have hbk : build_kg products =
      SIMILAR_PAIRS.foldl (addSimilarEdge (products.map Product.product_id))
        (products.foldl addProductToKG
          ((sortedSet (products.flatMap Product.tags)).foldl (fun g a => addNode g ("attr:" ++ a))
            ((sortedSet (products.map Product.brand)).foldl (fun g b => addNode g ("brand:" ++ b))
              ⟨CATEGORIES.map (fun c => "category:" ++ c), []⟩))) := rfl
  have hndF : (build_kg products).nodes.Nodup := by
    rw [hbk]
    exact simFold_nodes_nodup _ _ _ h3nd
  have hedF : (build_kg products).edges.Nodup := by
    rw [hbk]
    exact simFold_edges_nodup _ _ _ h3ed
  have hshapeF : ∀ e ∈ (build_kg products).edges, EdgeShape products e := by
    rw [hbk]
    exact simFold_shape products _ _ _ h3shape
  refine ⟨hndF, ?_⟩
  intro p hp
  obtain ⟨hm1, hm2, hm3, hm4, hm5⟩ := h3mem p hp
  have hm1' : ("product:" ++ p.product_id) ∈ (build_kg products).nodes := by
    rw [hbk]; exact simFold_nodes_mono _ _ _ _ hm1
  have hm2' : ("category:" ++ p.category) ∈ (build_kg products).nodes := by
    rw [hbk]; exact simFold_nodes_mono _ _ _ _ hm2
  have hm3' : ("brand:" ++ p.brand) ∈ (build_kg products).nodes := by
    rw [hbk]; exact simFold_nodes_mono _ _ _ _ hm3
  have hm5' : (⟨"product:" ++ p.product_id, "category:" ++ p.category, "IS_A"⟩ : Edge) ∈
      (build_kg products).edges := by
    rw [hbk]; exact simFold_edges_mono _ _ _ _ hm5
  refine ⟨List.count_eq_one_of_mem hndF hm1', List.count_eq_one_of_mem hndF hm2',
    List.count_eq_one_of_mem hndF hm3', ?_, ?_⟩
  · intro t ht
    have : ("attr:" ++ t) ∈ (build_kg products).nodes := by
      rw [hbk]; exact simFold_nodes_mono _ _ _ _ (hm4 t ht)
    exact List.count_eq_one_of_mem hndF this
  · exact isa_filter (build_kg products) products hids hedF hshapeF p hp hm5'

/-- First product of the C6 counterexample (duplicate id, category Dairy). -/
def dupProductA : Product :=
  { product_id := "P1", name := "N1", category := "Dairy", brand := "X",
    price := 1, in_stock := true, tags := [] }

/-- Second product of the C6 counterexample (same id, category Bakery). -/
def dupProductB : Product :=
  { product_id := "P1", name := "N2", category := "Bakery", brand := "X",
    price := 1, in_stock := true, tags := [] }

/-- C6 counterexample: with two products sharing an id but with different
(enumerated) categories, the shared product node carries two IS_A edges, so
"exactly one IS_A edge per product node" fails as claimed. -/
theorem build_kg_isa_counterexample :
    (∀ p ∈ [dupProductA, dupProductB], p.category ∈ CATEGORIES) ∧
    ¬ ((build_kg [dupProductA, dupProductB]).edges.filter (fun e => e.ty == "IS_A" &&
        (e.u == "product:" ++ dupProductA.product_id ||
          e.v == "product:" ++ dupProductA.product_id))).length = 1 := by
  constructor
  · decide
  · have h2 : ((build_kg [dupProductA, dupProductB]).edges.filter (fun e => e.ty == "IS_A" &&
        (e.u == "product:" ++ dupProductA.product_id ||
          e.v == "product:" ++ dupProductA.product_id))).length = 2 := by
      with_unfolding_all rfl
    omega

/-- Witness for the amended C6 on the two-product scenario catalog. -/
theorem build_kg_unique_nodes_and_isa_witness :
    (build_kg [scenarioProductA, scenarioProductB]).nodes.Nodup ∧
    ((build_kg [scenarioProductA, scenarioProductB]).nodes.count
        ("product:" ++ scenarioProductA.product_id) = 1 ∧
      (build_kg [scenarioProductA, scenarioProductB]).nodes.count
        ("category:" ++ scenarioProductA.category) = 1 ∧
      (build_kg [scenarioProductA, scenarioProductB]).nodes.count
        ("brand:" ++ scenarioProductA.brand) = 1 ∧
      (∀ t ∈ scenarioProductA.tags,
        (build_kg [scenarioProductA, scenarioProductB]).nodes.count ("attr:" ++ t) = 1) ∧
      (build_kg [scenarioProductA, scenarioProductB]).edges.filter (fun e => e.ty == "IS_A" &&
          (e.u == "product:" ++ scenarioProductA.product_id ||
            e.v == "product:" ++ scenarioProductA.product_id)) =
        [⟨"product:" ++ scenarioProductA.product_id,
          "category:" ++ scenarioProductA.category, "IS_A"⟩]) := by
  have H := build_kg_unique_nodes_and_isa [scenarioProductA, scenarioProductB]
    (by decide) (by decide)
  exact ⟨H.1, H.2 scenarioProductA (List.mem_cons_self _ _)⟩

end ShopSub












